import Mathlib

/-!
Verification of the version-kit library: a shallow embedding of the Go
package `version` (version.go and its HTTP handler file) together with
proofs about the formatting, validation and HTTP-exposure behaviour.

Go strings are modelled as Lean `String`s; Go's `len`/slicing are modelled
at the character level (`String.length`, `strTake`).  Runtime-derived
values (`runtime.Version()`, `runtime.GOOS`, `runtime.GOARCH`,
`runtime.Compiler`) are inputs of the model, collected in `RuntimeEnv`;
the package-level default variables are collected in `Globals`.
-/

namespace VersionKit

/-- Model of Go's `s[:n]` on strings (character level). -/
def strTake (s : String) (n : Nat) : String :=
  String.mk (s.data.take n)

/-- The values the Go runtime supplies at construction time:
`runtime.Version()`, `runtime.GOOS`, `runtime.GOARCH`, `runtime.Compiler`. -/
structure RuntimeEnv where
  goVersion : String
  goos : String
  goarch : String
  compiler : String
deriving DecidableEq, Repr

/-- The `Info` struct of version.go (all fields are Go strings; the Go
zero value of each field is `""`, which is the default here as well). -/
structure Info where
  Version : String := ""
  Commit : String := ""
  BuildDate : String := ""
  Branch : String := ""
  GoVersion : String := ""
  Platform : String := ""
  Compiler : String := ""
deriving DecidableEq, Repr

/-- `New(version, commit, buildDate)` from version.go: runtime-derived
fields are auto-populated from the environment. -/
def New (env : RuntimeEnv) (version commit buildDate : String) : Info :=
  { Version := version
    Commit := commit
    BuildDate := buildDate
    GoVersion := env.goVersion
    Platform := env.goos ++ "/" ++ env.goarch
    Compiler := env.compiler }

/-- `NewWithBranch(version, commit, buildDate, branch)` from version.go. -/
def NewWithBranch (env : RuntimeEnv) (version commit buildDate branch : String) : Info :=
  { New env version commit buildDate with Branch := branch }

/-- The package-level default variables of version.go (overridable via
ldflags); the field defaults mirror the Go initializers. -/
structure Globals where
  Version : String := "dev"
  Commit : String := "unknown"
  BuildDate : String := "unknown"
  Branch : String := ""
deriving DecidableEq, Repr

/-- `Default()` from version.go. -/
def Default (env : RuntimeEnv) (g : Globals) : Info :=
  NewWithBranch env g.Version g.Commit g.BuildDate g.Branch

/-- `Info.ShortCommit()` from version.go. -/
def Info.ShortCommit (i : Info) : String :=
  if i.Commit == "" || i.Commit == "unknown" then ""
  else if 7 < i.Commit.length then strTake i.Commit 7
  else i.Commit

/-- `Info.String()` from version.go (named `string` here because `String`
is taken by the Lean type). -/
def Info.string (i : Info) : String :=
  if i.Commit != "" && i.Commit != "unknown" then
    let shortCommit := if 7 < i.Commit.length then strTake i.Commit 7 else i.Commit
    i.Version ++ " (" ++ shortCommit ++ ")"
  else
    i.Version

/-- `Info.Full()` from version.go. -/
def Info.Full (i : Info) : String :=
  "Version:    " ++ i.Version ++ "\n"
    ++ (if i.Commit != "" && i.Commit != "unknown" then
          "Commit:     " ++ i.Commit ++ "\n" else "")
    ++ (if i.Branch != "" then "Branch:     " ++ i.Branch ++ "\n" else "")
    ++ (if i.BuildDate != "" && i.BuildDate != "unknown" then
          "Built:      " ++ i.BuildDate ++ "\n" else "")
    ++ "Go version: " ++ i.GoVersion ++ "\n"
    ++ "Platform:   " ++ i.Platform ++ "\n"
    ++ "Compiler:   " ++ i.Compiler ++ "\n"

/-- `Info.Validate()` from version.go: `some msg` models a non-nil Go
error, `none` models a nil error. -/
def Info.Validate (i : Info) : Option String :=
  if i.Version == "" then some "version is required" else none

/-- One lowercase hexadecimal digit, as produced by encoding/json. -/
def hexDigit (n : Nat) : Char :=
  if n < 10 then Char.ofNat (48 + n) else Char.ofNat (87 + n)

/-- Escaping of one character inside a JSON string, following
encoding/json's default encoder (HTML escaping enabled). -/
def escapeChar (c : Char) : String :=
  if c = '"' then "\\\""
  else if c = '\\' then "\\\\"
  else if c = '\n' then "\\n"
  else if c = '\r' then "\\r"
  else if c = '\t' then "\\t"
  else if c.toNat < 32 then
    "\\u00" ++ String.mk [hexDigit (c.toNat / 16), hexDigit (c.toNat % 16)]
  else if c = '<' then "\\u003c"
  else if c = '>' then "\\u003e"
  else if c = '&' then "\\u0026"
  else String.mk [c]

/-- A Go string rendered as a JSON string literal. -/
def encodeJSONString (s : String) : String :=
  "\"" ++ String.join (s.data.map escapeChar) ++ "\""

/-- The key/value pairs encoding/json emits for an `Info`, in struct
declaration order.  Every field except `version` carries the `omitempty`
tag, which for a Go string means: the key is omitted exactly when the
string is `""`. -/
def marshalFields (i : Info) : List (String × String) :=
  [("version", i.Version)]
    ++ (if i.Commit != "" then [("commit", i.Commit)] else [])
    ++ (if i.BuildDate != "" then [("build_date", i.BuildDate)] else [])
    ++ (if i.Branch != "" then [("branch", i.Branch)] else [])
    ++ (if i.GoVersion != "" then [("go_version", i.GoVersion)] else [])
    ++ (if i.Platform != "" then [("platform", i.Platform)] else [])
    ++ (if i.Compiler != "" then [("compiler", i.Compiler)] else [])

/-- The keys appearing in the JSON object emitted for an `Info`. -/
def jsonKeys (i : Info) : List String :=
  (marshalFields i).map Prod.fst

/-- A Go field value as seen by encoding/json, restricted to the kinds
relevant here: strings marshal successfully, while a value of an
unsupported kind (func, chan, complex, …) makes the marshaller fail. -/
inductive JLeaf where
  | str : String → JLeaf
  | unsupported : String → JLeaf
deriving DecidableEq, Repr

/-- encoding/json on one field value. -/
def marshalLeaf : JLeaf → Except String String
  | .str s => Except.ok (encodeJSONString s)
  | .unsupported t => Except.error ("json: unsupported type: " ++ t)

/-- encoding/json on a field list: marshal every value in order, failing
as soon as one fails. -/
def marshalValues : List (String × JLeaf) → Except String (List (String × String))
  | [] => Except.ok []
  | p :: rest => do
    let v ← marshalLeaf p.2
    let tail ← marshalValues rest
    pure ((p.1, v) :: tail)

/-- `json.Marshal` on a struct: compact object syntax. -/
def marshalObj (fields : List (String × JLeaf)) : Except String String :=
  match marshalValues fields with
  | .error e => .error e
  | .ok rendered =>
      .ok ("\x7b"
        ++ String.intercalate ","
            (rendered.map fun p => encodeJSONString p.1 ++ ":" ++ p.2)
        ++ "\x7d")

/-- `json.MarshalIndent(v, "", "  ")` on a struct: two-space indented
object syntax. -/
def marshalObjIndent (fields : List (String × JLeaf)) : Except String String :=
  match marshalValues fields with
  | .error e => .error e
  | .ok [] => .ok "\x7b\x7d"
  | .ok rendered =>
      .ok ("\x7b\n"
        ++ String.intercalate ",\n"
            (rendered.map fun p => "  " ++ encodeJSONString p.1 ++ ": " ++ p.2)
        ++ "\n\x7d")

/-- The field list of an `Info` as encoding/json sees it: every stored
field is a Go string. -/
def infoFieldsJ (i : Info) : List (String × JLeaf) :=
  (marshalFields i).map (fun p => (p.1, JLeaf.str p.2))

/-- `json.Marshal` applied to an `Info`. -/
def jsonMarshalInfo (i : Info) : Except String String :=
  marshalObj (infoFieldsJ i)

/-- `json.MarshalIndent` applied to an `Info`. -/
def jsonMarshalIndentInfo (i : Info) : Except String String :=
  marshalObjIndent (infoFieldsJ i)

/-- `Info.JSON()` from version.go: on a marshalling error it falls back
to a degraded object holding only the version and the error text. -/
def Info.JSON (i : Info) : String :=
  match jsonMarshalInfo i with
  | .ok data => data
  | .error e =>
      "\x7b\"version\":\"" ++ i.Version ++ "\",\"error\":\"" ++ e ++ "\"\x7d"

/-- `Info.JSONPretty()` from version.go. -/
def Info.JSONPretty (i : Info) : String :=
  match jsonMarshalIndentInfo i with
  | .ok data => data
  | .error e =>
      "\x7b\"version\":\"" ++ i.Version ++ "\",\"error\":\"" ++ e ++ "\"\x7d"

/-- Auxiliary: `strTake` keeps a string whole when it is short enough. -/
theorem strTake_of_length_le (s : String) (n : Nat) (h : s.length ≤ n) :
    strTake s n = s := by
  unfold strTake
  cases s with
  | mk data =>
    simp only [String.length] at h
    simp [List.take_of_length_le h]

/-- C1 (counterexample): the claim states that every commit of length at
most 7 is returned unchanged by `ShortCommit`, but the stored commit
`"unknown"` has length 7 and `ShortCommit` returns `""` for it. -/
theorem shortCommit_claim_cex :
    ({ Commit := "unknown" } : Info).ShortCommit ≠ "unknown"
      ∧ ("unknown" : String).length ≤ 7 := by
  constructor
  · decide
  · decide

/-- C1 (amended): if the commit is absent (empty or the sentinel
`"unknown"`), `ShortCommit` returns `""`; otherwise a commit of length at
most 7 is returned unchanged and a longer commit is truncated to its
first 7 characters. -/
theorem shortCommit_spec (i : Info) :
    (i.Commit = "" ∨ i.Commit = "unknown" → i.ShortCommit = "")
      ∧ (i.Commit ≠ "" → i.Commit ≠ "unknown" → i.Commit.length ≤ 7 →
          i.ShortCommit = i.Commit)
      ∧ (i.Commit ≠ "" → i.Commit ≠ "unknown" → 7 < i.Commit.length →
          i.ShortCommit = strTake i.Commit 7) := by
  refine ⟨?_, ?_, ?_⟩
  · intro h
    rcases h with h | h <;> simp [Info.ShortCommit, h]
  · intro h1 h2 hlen
    have hnot : ¬ 7 < i.Commit.length := Nat.not_lt.mpr hlen
    simp [Info.ShortCommit, h1, h2, hnot]
  · intro h1 h2 hlen
    simp [Info.ShortCommit, h1, h2, hlen]

/-- C1 (witness): `shortCommit_spec` applied to a concrete long commit. -/
theorem shortCommit_spec_witness :
    ({ Commit := "abc1234567890" } : Info).ShortCommit
      = strTake "abc1234567890" 7 :=
  (shortCommit_spec _).2.2 (by decide) (by decide) (by decide)

/-- C6: `String()` returns exactly the version when the commit is absent
(empty or `"unknown"`), and otherwise the version followed by the commit
truncated to 7 characters in parentheses; in particular an `Info` built
with version `"1.0.0"` and commit `"abc1234567890"` displays as
`"1.0.0 (abc1234)"`. -/
theorem displayString_spec :
    (∀ i : Info, i.Commit = "" ∨ i.Commit = "unknown" → i.string = i.Version)
      ∧ (∀ i : Info, i.Commit ≠ "" → i.Commit ≠ "unknown" →
          i.string = i.Version ++ " (" ++ strTake i.Commit 7 ++ ")")
      ∧ (∀ env : RuntimeEnv,
          (New env "1.0.0" "abc1234567890" "").string = "1.0.0 (abc1234)") := by
  refine ⟨?_, ?_, ?_⟩
  · intro i h
    rcases h with h | h <;> simp [Info.string, h]
  · intro i h1 h2
    by_cases hlen : 7 < i.Commit.length
    · simp [Info.string, h1, h2, hlen]
    · have hle : i.Commit.length ≤ 7 := Nat.not_lt.mp hlen
      simp [Info.string, h1, h2, hlen, strTake_of_length_le _ _ hle]
  · intro env
    rfl

/-- C6 (witness): `displayString_spec` applied to a concrete present
commit. -/
theorem displayString_spec_witness :
    ({ Version := "2.0", Commit := "deadbeefcafe" } : Info).string
      = "2.0" ++ " (" ++ strTake "deadbeefcafe" 7 ++ ")" :=
  displayString_spec.2.1 _ (by decide) (by decide)

/-- C8: `Validate()` returns an error exactly when the version field is
the empty string; no other field influences validation. -/
theorem validate_spec : ∀ i : Info, i.Validate ≠ none ↔ i.Version = "" := by
  intro i
  by_cases h : i.Version = "" <;> simp [Info.Validate, h]

/-- Auxiliary: membership in a conditional list. -/
theorem mem_ite_nil {α : Type} (a : α) (c : Prop) [Decidable c] (l : List α) :
    a ∈ (if c then l else []) ↔ c ∧ a ∈ l := by
  split <;> simp_all

/-- Auxiliary: the shape of `jsonKeys`. -/
theorem jsonKeys_eq (i : Info) :
    jsonKeys i = ["version"]
      ++ (if i.Commit != "" then ["commit"] else [])
      ++ (if i.BuildDate != "" then ["build_date"] else [])
      ++ (if i.Branch != "" then ["branch"] else [])
      ++ (if i.GoVersion != "" then ["go_version"] else [])
      ++ (if i.Platform != "" then ["platform"] else [])
      ++ (if i.Compiler != "" then ["compiler"] else []) := by
  simp only [jsonKeys, marshalFields, List.map_append, apply_ite (List.map Prod.fst)]
  rfl

/-- C2 (counterexample): the claim treats the sentinel `"unknown"` as
absent and so predicts no `commit` key, but encoding/json's `omitempty`
only omits the empty string, and the serialization of an `Info` whose
commit is `"unknown"` does contain the key `commit`. -/
theorem json_omits_unknown_cex :
    "commit" ∈ jsonKeys ({ Version := "1.0.0", Commit := "unknown" } : Info)
      ∧ ({ Version := "1.0.0", Commit := "unknown" } : Info).Commit
          = "unknown" := by
  constructor
  · decide
  · rfl

/-- C2 (amended): the emitted JSON object contains a key for an optional
field (`commit`, `build_date`, `branch`) exactly when that field is not
the empty string; the sentinel `"unknown"` is serialized like any other
non-empty value, and `version` is always present. -/
theorem json_keys_spec : ∀ i : Info,
    "version" ∈ jsonKeys i
      ∧ ("commit" ∈ jsonKeys i ↔ i.Commit ≠ "")
      ∧ ("build_date" ∈ jsonKeys i ↔ i.BuildDate ≠ "")
      ∧ ("branch" ∈ jsonKeys i ↔ i.Branch ≠ "") := by
  intro i
  have h1 : ("commit" : String) ≠ "version" := by decide
  have h2 : ("commit" : String) ≠ "build_date" := by decide
  have h3 : ("commit" : String) ≠ "branch" := by decide
  have h4 : ("commit" : String) ≠ "go_version" := by decide
  have h5 : ("commit" : String) ≠ "platform" := by decide
  have h6 : ("commit" : String) ≠ "compiler" := by decide
  have g1 : ("build_date" : String) ≠ "version" := by decide
  have g2 : ("build_date" : String) ≠ "commit" := by decide
  have g3 : ("build_date" : String) ≠ "branch" := by decide
  have g4 : ("build_date" : String) ≠ "go_version" := by decide
  have g5 : ("build_date" : String) ≠ "platform" := by decide
  have g6 : ("build_date" : String) ≠ "compiler" := by decide
  have f1 : ("branch" : String) ≠ "version" := by decide
  have f2 : ("branch" : String) ≠ "commit" := by decide
  have f3 : ("branch" : String) ≠ "build_date" := by decide
  have f4 : ("branch" : String) ≠ "go_version" := by decide
  have f5 : ("branch" : String) ≠ "platform" := by decide
  have f6 : ("branch" : String) ≠ "compiler" := by decide
  refine ⟨?_, ?_, ?_, ?_⟩
  · rw [jsonKeys_eq]; simp
  · rw [jsonKeys_eq]
    simp [mem_ite_nil, h1, h2, h3, h4, h5, h6, bne_iff_ne]
  · rw [jsonKeys_eq]
    simp [mem_ite_nil, g1, g2, g3, g4, g5, g6, bne_iff_ne]
  · rw [jsonKeys_eq]
    simp [mem_ite_nil, f1, f2, f3, f4, f5, f6, bne_iff_ne]

/-- Auxiliary: marshalling a list of string-valued fields never fails. -/
theorem marshalValues_str (l : List (String × String)) :
    marshalValues (l.map fun p => (p.1, JLeaf.str p.2))
      = Except.ok (l.map fun p => (p.1, encodeJSONString p.2)) := by
  induction l with
  | nil => rfl
  | cons p rest ih =>
    simp [marshalValues, marshalLeaf, ih]
    rfl

/-- Auxiliary: `json.Marshal` on an `Info` always succeeds, with the
compact object text. -/
theorem jsonMarshalInfo_ok (i : Info) :
    jsonMarshalInfo i = Except.ok ("\x7b"
      ++ String.intercalate ","
          ((marshalFields i).map fun p =>
            encodeJSONString p.1 ++ ":" ++ encodeJSONString p.2)
      ++ "\x7d") := by
  unfold jsonMarshalInfo marshalObj infoFieldsJ
  rw [marshalValues_str]
  simp [List.map_map]
  rfl

/-- Auxiliary: `marshalFields` always starts with the `version` field. -/
theorem marshalFields_cons (i : Info) :
    ∃ rest, marshalFields i = ("version", i.Version) :: rest := by
  exact ⟨_, rfl⟩

/-- Auxiliary: `json.MarshalIndent` on an `Info` always succeeds, with
the two-space indented object text. -/
theorem jsonMarshalIndentInfo_ok (i : Info) :
    jsonMarshalIndentInfo i = Except.ok ("\x7b\n"
      ++ String.intercalate ",\n"
          ((marshalFields i).map fun p =>
            "  " ++ encodeJSONString p.1 ++ ": " ++ encodeJSONString p.2)
      ++ "\n\x7d") := by
  obtain ⟨rest, hrest⟩ := marshalFields_cons i
  unfold jsonMarshalIndentInfo marshalObjIndent infoFieldsJ
  rw [hrest, marshalValues_str]
  simp [List.map_map]
  rfl

/-- C10: the error fallback of `JSON()` and `JSONPretty()` is
unreachable: marshalling an `Info` (a flat record of strings) always
succeeds, and both methods return exactly the marshaller's output, never
the degraded version-plus-error object. -/
theorem json_fallback_unreachable : ∀ i : Info,
    jsonMarshalInfo i = Except.ok i.JSON
      ∧ jsonMarshalIndentInfo i = Except.ok i.JSONPretty := by
  intro i
  constructor
  · rw [Info.JSON, jsonMarshalInfo_ok]
  · rw [Info.JSONPretty, jsonMarshalIndentInfo_ok]

/-- The `Builder` struct of version.go. -/
structure Builder where
  info : Info
deriving DecidableEq, Repr

/-- `NewBuilder()` from version.go: runtime fields pre-populated, all
other fields at their Go zero value `""`. -/
def NewBuilder (env : RuntimeEnv) : Builder :=
  { info := { GoVersion := env.goVersion
              Platform := env.goos ++ "/" ++ env.goarch
              Compiler := env.compiler } }

/-- `Builder.WithVersion` from version.go. -/
def Builder.WithVersion (b : Builder) (version : String) : Builder :=
  { b with info := { b.info with Version := version } }

/-- `Builder.WithCommit` from version.go. -/
def Builder.WithCommit (b : Builder) (commit : String) : Builder :=
  { b with info := { b.info with Commit := commit } }

/-- `Builder.WithBuildDate` from version.go. -/
def Builder.WithBuildDate (b : Builder) (buildDate : String) : Builder :=
  { b with info := { b.info with BuildDate := buildDate } }

/-- `Builder.WithBranch` from version.go. -/
def Builder.WithBranch (b : Builder) (branch : String) : Builder :=
  { b with info := { b.info with Branch := branch } }

/-- `Builder.Build` from version.go. -/
def Builder.Build (b : Builder) : Info :=
  b.info

/-- C9: the fluent builder chain produces, field for field, the same
record as direct construction via `NewWithBranch`, including the
runtime-derived fields populated at builder creation time. -/
theorem builder_eq_direct : ∀ (env : RuntimeEnv) (v c d b : String),
    (((((NewBuilder env).WithVersion v).WithCommit c).WithBuildDate d).WithBranch b).Build
      = NewWithBranch env v c d b := by
  intro env v c d b
  rfl

/-- The `HandlerConfig` struct of the handlers file.  The Go `*Info`
pointer is modelled as `Option Info` (`none` = nil); the field defaults
are the Go zero values. -/
structure HandlerConfig where
  Info : Option Info := none
  Pretty : Bool := false
  IncludeHeaders : Bool := false
  HeaderPrefix : String := ""
deriving DecidableEq, Repr

/-- `DefaultHandlerConfig()` from the handlers file. -/
def DefaultHandlerConfig (env : RuntimeEnv) (g : Globals) : HandlerConfig :=
  { Info := some (Default env g)
    Pretty := false
    IncludeHeaders := false
    HeaderPrefix := "X-" }

/-- `setVersionHeaders(h, info, prefix)` from the handlers file: the
header name/value pairs passed to `h.Set`, in call order
(`setVersionHeadersFiber` is the same logic on the Fiber context). -/
def setVersionHeaders (i : Info) (pfx : String) : List (String × String) :=
  [(pfx ++ "Version", i.Version)]
    ++ (if i.Commit != "" && i.Commit != "unknown" then
          [(pfx ++ "Commit", i.ShortCommit)] else [])
    ++ (if i.Branch != "" then [(pfx ++ "Branch", i.Branch)] else [])
    ++ (if i.BuildDate != "" && i.BuildDate != "unknown" then
          [(pfx ++ "Build-Date", i.BuildDate)] else [])

/-- The configuration normalization `Handler` and `FiberHandler` perform
before serving: a nil `Info` is replaced by `Default()` and an empty
`HeaderPrefix` by `"X-"`. -/
def resolveJSONHandlerConfig (env : RuntimeEnv) (g : Globals)
    (cfg : HandlerConfig) : HandlerConfig :=
  let cfg := if cfg.Info = none then
    { cfg with Info := some (Default env g) } else cfg
  if cfg.HeaderPrefix == "" then { cfg with HeaderPrefix := "X-" } else cfg

/-- The configuration normalization `TextHandler` and `FiberTextHandler`
perform: only a nil `Info` is replaced; the header prefix is used exactly
as supplied. -/
def resolveTextHandlerConfig (env : RuntimeEnv) (g : Globals)
    (cfg : HandlerConfig) : HandlerConfig :=
  if cfg.Info = none then { cfg with Info := some (Default env g) } else cfg

/-- An HTTP response as observed by a client: header set calls in order,
status code, body. -/
structure Response where
  headers : List (String × String)
  status : Nat
  body : String
deriving DecidableEq, Repr

/-- The response written by the `http.HandlerFunc` returned by
`Handler(cfg)` (the resolved `Info` is always present, so `getD` never
falls back). -/
def HandlerServe (env : RuntimeEnv) (g : Globals) (cfg0 : HandlerConfig) :
    Response :=
  let cfg := resolveJSONHandlerConfig env g cfg0
  let i := cfg.Info.getD (Default env g)
  let hs := [("Content-Type", "application/json")]
    ++ (if cfg.IncludeHeaders then setVersionHeaders i cfg.HeaderPrefix else [])
  match (if cfg.Pretty then jsonMarshalIndentInfo i else jsonMarshalInfo i) with
  | .ok out => { headers := hs, status := 200, body := out }
  | .error _ => { headers := hs, status := 500,
                  body := "\x7b\"error\": \"failed to marshal version info\"\x7d\n" }

/-- The response written by the Fiber handler returned by
`FiberHandler(cfg)`.  Both branches of its `Pretty` conditional call
`c.JSON`, whose default encoder is encoding/json's compact `Marshal`. -/
def FiberHandlerServe (env : RuntimeEnv) (g : Globals)
    (cfg0 : HandlerConfig) : Response :=
  let cfg := resolveJSONHandlerConfig env g cfg0
  let i := cfg.Info.getD (Default env g)
  let hs := [("Content-Type", "application/json")]
    ++ (if cfg.IncludeHeaders then setVersionHeaders i cfg.HeaderPrefix else [])
  match (if cfg.Pretty then jsonMarshalInfo i else jsonMarshalInfo i) with
  | .ok out => { headers := hs, status := 200, body := out }
  | .error e => { headers := hs, status := 500, body := e }

/-- The response written by `TextHandler(cfg)`. -/
def TextHandlerServe (env : RuntimeEnv) (g : Globals)
    (cfg0 : HandlerConfig) : Response :=
  let cfg := resolveTextHandlerConfig env g cfg0
  let i := cfg.Info.getD (Default env g)
  { headers := [("Content-Type", "text/plain; charset=utf-8")]
      ++ (if cfg.IncludeHeaders then setVersionHeaders i cfg.HeaderPrefix else [])
    status := 200
    body := i.Full }

/-- The response written by `FiberTextHandler(cfg)` (same logic as
`TextHandler` on the Fiber context). -/
def FiberTextHandlerServe (env : RuntimeEnv) (g : Globals)
    (cfg0 : HandlerConfig) : Response :=
  let cfg := resolveTextHandlerConfig env g cfg0
  let i := cfg.Info.getD (Default env g)
  { headers := [("Content-Type", "text/plain; charset=utf-8")]
      ++ (if cfg.IncludeHeaders then setVersionHeaders i cfg.HeaderPrefix else [])
    status := 200
    body := i.Full }

/-- The version headers `Middleware(info, prefix)` injects on every
response (after its own defaulting of a nil info and an empty prefix);
`FiberMiddleware` performs the identical defaulting. -/
def MiddlewareHeaders (env : RuntimeEnv) (g : Globals)
    (info : Option Info) (pfx : String) : List (String × String) :=
  let i := info.getD (Default env g)
  let p := if pfx == "" then "X-" else pfx
  setVersionHeaders i p

/-- A concrete runtime environment used in the closed evaluations. -/
def env0 : RuntimeEnv :=
  { goVersion := "go1.24.0", goos := "linux", goarch := "amd64", compiler := "gc" }

/-- The package-level defaults as initialized in version.go. -/
def g0 : Globals := {}

/-- C3: the text handlers do not apply the empty-prefix defaulting.  On a
configuration with `IncludeHeaders` set and an empty `HeaderPrefix`, both
`TextHandler` and `FiberTextHandler` emit the version headers with no
prefix at all (header name `Version`, not `X-Version`), while the JSON
`Handler` on the same configuration does substitute `"X-"`. -/
theorem textHandler_empty_prefix_bug :
    let cfg : HandlerConfig :=
      { Info := some { Version := "1.0.0", Commit := "abc1234567890", Branch := "main" }
        IncludeHeaders := true
        HeaderPrefix := "" }
    (TextHandlerServe env0 g0 cfg).headers.lookup "Version" = some "1.0.0"
      ∧ (TextHandlerServe env0 g0 cfg).headers.lookup "X-Version" = none
      ∧ (FiberTextHandlerServe env0 g0 cfg).headers.lookup "Version" = some "1.0.0"
      ∧ (FiberTextHandlerServe env0 g0 cfg).headers.lookup "X-Version" = none
      ∧ (HandlerServe env0 g0 cfg).headers.lookup "X-Version" = some "1.0.0" := by
  decide

/-- C4: with `Pretty` set, the net/http handler indents its JSON body
while the Fiber handler ignores the flag and stays compact, so the two
variants disagree; with `Pretty` unset they agree. -/
theorem fiberHandler_pretty_bug :
    let cfg : HandlerConfig :=
      { Info := some { Version := "1.0.0", Commit := "abc123" }, Pretty := true }
    (HandlerServe env0 g0 cfg).body ≠ (FiberHandlerServe env0 g0 cfg).body
      ∧ (FiberHandlerServe env0 g0 cfg).body
          = (FiberHandlerServe env0 g0 { cfg with Pretty := false }).body
      ∧ (HandlerServe env0 g0 { cfg with Pretty := false }).body
          = (FiberHandlerServe env0 g0 { cfg with Pretty := false }).body := by
  decide

/-- Auxiliary: appending a common prefix preserves string inequality. -/
theorem strAppend_ne (p a b : String) (h : a ≠ b) : p ++ a ≠ p ++ b := by
  intro he
  apply h
  apply String.ext
  have hd : (p ++ a).data = (p ++ b).data := congrArg String.data he
  rw [String.data_append, String.data_append] at hd
  exact (List.append_right_inj p.data).mp hd

/-- Auxiliary: which header/value pairs `setVersionHeaders` emits. -/
theorem mem_setVersionHeaders (i : Info) (pfx k v : String) :
    (k, v) ∈ setVersionHeaders i pfx ↔
      (k = pfx ++ "Version" ∧ v = i.Version)
        ∨ ((i.Commit ≠ "" ∧ i.Commit ≠ "unknown")
            ∧ k = pfx ++ "Commit" ∧ v = i.ShortCommit)
        ∨ (i.Branch ≠ "" ∧ k = pfx ++ "Branch" ∧ v = i.Branch)
        ∨ ((i.BuildDate ≠ "" ∧ i.BuildDate ≠ "unknown")
            ∧ k = pfx ++ "Build-Date" ∧ v = i.BuildDate) := by
  simp only [setVersionHeaders, List.mem_append, List.mem_singleton,
    mem_ite_nil, Bool.and_eq_true, bne_iff_ne, Prod.mk.injEq, ne_eq]
  tauto

/-- C5: header injection always writes `{prefix}Version` with the
version; it writes `{prefix}Commit` (with value `ShortCommit()`) exactly
when the commit is neither `""` nor `"unknown"`, `{prefix}Branch` (with
the branch) exactly when the branch is non-empty, and
`{prefix}Build-Date` (with the verbatim build date) exactly when the
build date is neither `""` nor `"unknown"`. -/
theorem setVersionHeaders_spec : ∀ (i : Info) (pfx : String),
    (pfx ++ "Version", i.Version) ∈ setVersionHeaders i pfx
      ∧ ((∃ v, (pfx ++ "Commit", v) ∈ setVersionHeaders i pfx)
          ↔ i.Commit ≠ "" ∧ i.Commit ≠ "unknown")
      ∧ (∀ v, (pfx ++ "Commit", v) ∈ setVersionHeaders i pfx →
          v = i.ShortCommit)
      ∧ ((∃ v, (pfx ++ "Branch", v) ∈ setVersionHeaders i pfx)
          ↔ i.Branch ≠ "")
      ∧ (∀ v, (pfx ++ "Branch", v) ∈ setVersionHeaders i pfx → v = i.Branch)
      ∧ ((∃ v, (pfx ++ "Build-Date", v) ∈ setVersionHeaders i pfx)
          ↔ i.BuildDate ≠ "" ∧ i.BuildDate ≠ "unknown")
      ∧ (∀ v, (pfx ++ "Build-Date", v) ∈ setVersionHeaders i pfx →
          v = i.BuildDate) := by
  intro i pfx
  have hCV := strAppend_ne pfx "Commit" "Version" (by decide)
  have hCB := strAppend_ne pfx "Commit" "Branch" (by decide)
  have hCD := strAppend_ne pfx "Commit" "Build-Date" (by decide)
  have hBV := strAppend_ne pfx "Branch" "Version" (by decide)
  have hBC := strAppend_ne pfx "Branch" "Commit" (by decide)
  have hBD := strAppend_ne pfx "Branch" "Build-Date" (by decide)
  have hDV := strAppend_ne pfx "Build-Date" "Version" (by decide)
  have hDC := strAppend_ne pfx "Build-Date" "Commit" (by decide)
  have hDB := strAppend_ne pfx "Build-Date" "Branch" (by decide)
  refine ⟨?_, ?_, ?_, ?_, ?_, ?_, ?_⟩
  · rw [mem_setVersionHeaders]
    exact Or.inl ⟨rfl, rfl⟩
  · simp only [mem_setVersionHeaders, hCV, hCB, hCD, false_and, and_false,
      or_false, false_or, exists_eq_right_right]
    tauto
  · intro v hv
    rw [mem_setVersionHeaders] at hv
    rcases hv with ⟨hk, _⟩ | ⟨_, _, hv⟩ | ⟨_, hk, _⟩ | ⟨_, hk, _⟩
    · exact absurd hk hCV
    · exact hv
    · exact absurd hk hCB
    · exact absurd hk hCD
  · simp only [mem_setVersionHeaders, hBV, hBC, hBD, false_and, and_false,
      or_false, false_or, exists_eq_right_right]
    tauto
  · intro v hv
    rw [mem_setVersionHeaders] at hv
    rcases hv with ⟨hk, _⟩ | ⟨_, hk, _⟩ | ⟨_, _, hv⟩ | ⟨_, hk, _⟩
    · exact absurd hk hBV
    · exact absurd hk hBC
    · exact hv
    · exact absurd hk hBD
  · simp only [mem_setVersionHeaders, hDV, hDC, hDB, false_and, and_false,
      or_false, false_or, exists_eq_right_right]
    tauto
  · intro v hv
    rw [mem_setVersionHeaders] at hv
    rcases hv with ⟨hk, _⟩ | ⟨_, hk, _⟩ | ⟨_, hk, _⟩ | ⟨_, _, hv⟩
    · exact absurd hk hDV
    · exact absurd hk hDC
    · exact absurd hk hDB
    · exact hv

/-- C5 (witness): `setVersionHeaders_spec` applied to a concrete info
and prefix, reading off the value of the emitted commit header. -/
theorem setVersionHeaders_spec_witness :
    "abc1234" = ({ Commit := "abc1234567890" } : Info).ShortCommit :=
  (setVersionHeaders_spec { Commit := "abc1234567890" } "X-").2.2.1 "abc1234"
    (by decide)

/-- C2 (witness): `json_keys_spec` applied to a concrete info with a
non-empty commit. -/
theorem json_keys_spec_witness :
    "commit" ∈ jsonKeys ({ Version := "1.0.0", Commit := "abc" } : Info) :=
  (json_keys_spec _).2.1.mpr (by decide)

/-- C8 (witness): `validate_spec` applied to the empty info. -/
theorem validate_spec_witness : ({ } : Info).Validate ≠ none :=
  (validate_spec { }).mpr rfl

/-- C9 (witness): `builder_eq_direct` applied to concrete field
values. -/
theorem builder_eq_direct_witness :
    (((((NewBuilder env0).WithVersion "1.0.0").WithCommit
        "abc1234567890").WithBuildDate "2025-01-01").WithBranch "main").Build
      = NewWithBranch env0 "1.0.0" "abc1234567890" "2025-01-01" "main" :=
  builder_eq_direct env0 "1.0.0" "abc1234567890" "2025-01-01" "main"

/-- C10 (witness): `json_fallback_unreachable` applied to a concrete
info. -/
theorem json_fallback_unreachable_witness :
    jsonMarshalInfo ({ Version := "1.0.0" } : Info)
      = Except.ok ({ Version := "1.0.0" } : Info).JSON :=
  (json_fallback_unreachable _).1

/-- A parsed wall-clock instant: the fields Go's `time.Time` carries for
the layouts used here — calendar date, clock time, and the zone offset
east of UTC in seconds. -/
structure Timestamp where
  year : Nat
  month : Nat
  day : Nat
  hour : Nat
  minute : Nat
  second : Nat
  offsetSeconds : Int
deriving DecidableEq, Repr

/-- Go's zero `time.Time`: January 1 of year 1, 00:00:00 UTC. -/
def timeZero : Timestamp := ⟨1, 1, 1, 0, 0, 0, 0⟩

/-- Numeric value of a decimal digit character. -/
def digitVal (c : Char) : Nat := c.toNat - 48

/-- A fixed-width two-digit decimal field. -/
def num2 (a b : Char) : Option Nat :=
  if a.isDigit && b.isDigit then some (10 * digitVal a + digitVal b)
  else none

/-- A fixed-width four-digit decimal field. -/
def num4 (a b c d : Char) : Option Nat :=
  if a.isDigit && b.isDigit && c.isDigit && d.isDigit then
    some (1000 * digitVal a + 100 * digitVal b + 10 * digitVal c + digitVal d)
  else none

/-- Gregorian leap-year rule, as in Go's time package. -/
def isLeap (y : Nat) : Bool :=
  (y % 4 == 0 && y % 100 != 0) || y % 400 == 0

/-- Days in a month, as in Go's time package. -/
def daysIn (y m : Nat) : Nat :=
  if m == 2 then (if isLeap y then 29 else 28)
  else if m == 4 || m == 6 || m == 9 || m == 11 then 30
  else 31

/-- Go's range check on a parsed calendar date. -/
def validDate (y m d : Nat) : Bool :=
  decide (1 ≤ m) && decide (m ≤ 12) && decide (1 ≤ d)
    && decide (d ≤ daysIn y m)

/-- Go's range check on a parsed clock time. -/
def validClock (h mi s : Nat) : Bool :=
  decide (h ≤ 23) && decide (mi ≤ 59) && decide (s ≤ 59)

/-- Parse `YYYY-MM-DD` then `hh:mm:ss` with the given separator between
date and time, returning the instant (offset 0) and the unconsumed
remainder. -/
def parseDateTimeCore (sep : Char) :
    List Char → Option (Timestamp × List Char)
  | y1 :: y2 :: y3 :: y4 :: '-' :: m1 :: m2 :: '-' :: d1 :: d2 :: s0 ::
      h1 :: h2 :: ':' :: mi1 :: mi2 :: ':' :: s1 :: s2 :: rest =>
    if s0 == sep then do
      let y ← num4 y1 y2 y3 y4
      let m ← num2 m1 m2
      let d ← num2 d1 d2
      let h ← num2 h1 h2
      let mi ← num2 mi1 mi2
      let sec ← num2 s1 s2
      if validDate y m d && validClock h mi sec then
        some (⟨y, m, d, h, mi, sec, 0⟩, rest)
      else none
    else none
  | _ => none

/-- Go's parser accepts an optional fractional-seconds field directly
after the seconds: a period followed by at least one digit. -/
def skipFraction : List Char → List Char
  | '.' :: c :: rest =>
      if c.isDigit then (c :: rest).dropWhile Char.isDigit
      else '.' :: c :: rest
  | cs => cs

/-- The `Z07:00` zone field of RFC3339: `Z`, or `±hh:mm`, ending the
input. -/
def parseZoneRFC3339 : List Char → Option Int
  | ['Z'] => some 0
  | [sg, h1, h2, ':', m1, m2] =>
    if sg == '+' || sg == '-' then do
      let h ← num2 h1 h2
      let m ← num2 m1 m2
      if decide (h ≤ 23) && decide (m ≤ 59) then
        some (if sg == '-' then -(Int.ofNat (h * 3600 + m * 60))
              else Int.ofNat (h * 3600 + m * 60))
      else none
    else none
  | _ => none

/-- `time.Parse(time.RFC3339, s)`; the layout text is
`2006-01-02T15:04:05Z07:00`. -/
def parseRFC3339 (cs : List Char) : Option Timestamp := do
  let (t, rest) ← parseDateTimeCore 'T' cs
  let off ← parseZoneRFC3339 (skipFraction rest)
  some { t with offsetSeconds := off }

/-- `time.Parse("2006-01-02 15:04:05", s)`: no zone, whole input
consumed, offset 0 (UTC). -/
def parseDateTimeSpace (cs : List Char) : Option Timestamp := do
  let (t, rest) ← parseDateTimeCore ' ' cs
  if (skipFraction rest).isEmpty then some t else none

/-- `time.Parse("2006-01-02", s)`: a bare date, offset 0 (UTC). -/
def parseDateOnly : List Char → Option Timestamp
  | [y1, y2, y3, y4, '-', m1, m2, '-', d1, d2] => do
    let y ← num4 y1 y2 y3 y4
    let m ← num2 m1 m2
    let d ← num2 d1 d2
    if validDate y m d then some ⟨y, m, d, 0, 0, 0, 0⟩ else none
  | _ => none

/-- The three-letter weekday names accepted by the `Mon` field. -/
def weekdayOk (a b c : Char) : Bool :=
  let s := String.mk [a, b, c]
  s == "Mon" || s == "Tue" || s == "Wed" || s == "Thu" || s == "Fri"
    || s == "Sat" || s == "Sun"

/-- The three-letter month names of the `Jan` field. -/
def monthNum (a b c : Char) : Option Nat :=
  let s := String.mk [a, b, c]
  if s == "Jan" then some 1 else if s == "Feb" then some 2
  else if s == "Mar" then some 3 else if s == "Apr" then some 4
  else if s == "May" then some 5 else if s == "Jun" then some 6
  else if s == "Jul" then some 7 else if s == "Aug" then some 8
  else if s == "Sep" then some 9 else if s == "Oct" then some 10
  else if s == "Nov" then some 11 else if s == "Dec" then some 12
  else none

/-- Parse the `Mon, 02 Jan 2006 15:04:05` part shared by RFC1123 and
RFC1123Z, returning the instant and the unconsumed remainder.  Go does
not check the weekday against the date, only that it is a weekday
name. -/
def parseRFC1123Core : List Char → Option (Timestamp × List Char)
  | w1 :: w2 :: w3 :: ',' :: ' ' :: d1 :: d2 :: ' ' :: mo1 :: mo2 :: mo3 ::
      ' ' :: y1 :: y2 :: y3 :: y4 :: ' ' :: h1 :: h2 :: ':' :: mi1 :: mi2 ::
      ':' :: s1 :: s2 :: rest =>
    if weekdayOk w1 w2 w3 then do
      let m ← monthNum mo1 mo2 mo3
      let d ← num2 d1 d2
      let y ← num4 y1 y2 y3 y4
      let h ← num2 h1 h2
      let mi ← num2 mi1 mi2
      let s ← num2 s1 s2
      if validDate y m d && validClock h mi s then
        some (⟨y, m, d, h, mi, s, 0⟩, rest)
      else none
    else none
  | _ => none

/-- `time.Parse(time.RFC1123, s)`: a named zone of 2–5 capital letters;
under `time.Parse` an unrecognized name resolves to offset 0, as does
UTC/GMT. -/
def parseRFC1123 (cs : List Char) : Option Timestamp := do
  let (t, rest) ← parseRFC1123Core cs
  match rest with
  | ' ' :: z =>
    if decide (2 ≤ z.length) && decide (z.length ≤ 5)
        && z.all Char.isUpper then
      some t
    else none
  | _ => none

/-- `time.Parse(time.RFC1123Z, s)`: a numeric `±hhmm` zone. -/
def parseRFC1123Z (cs : List Char) : Option Timestamp := do
  let (t, rest) ← parseRFC1123Core cs
  match rest with
  | [' ', sg, h1, h2, m1, m2] =>
    if sg == '+' || sg == '-' then do
      let h ← num2 h1 h2
      let m ← num2 m1 m2
      if decide (h ≤ 23) && decide (m ≤ 59) then
        some { t with offsetSeconds :=
          if sg == '-' then -(Int.ofNat (h * 3600 + m * 60))
          else Int.ofNat (h * 3600 + m * 60) }
      else none
    else none
  | _ => none

/-- The `formats` slice in `Info.BuildTimestamp`.  Its first entry,
`"2006-01-02T15:04:05Z07:00"`, is textually identical to the RFC3339
layout already tried before the loop. -/
def buildFormats : List (String → Option Timestamp) :=
  [fun s => parseRFC3339 s.data,
   fun s => parseDateTimeSpace s.data,
   fun s => parseDateOnly s.data,
   fun s => parseRFC1123 s.data,
   fun s => parseRFC1123Z s.data]

/-- The `for _, format := range formats` loop: first successful parse. -/
def firstParse (fs : List (String → Option Timestamp)) (s : String) :
    Option Timestamp :=
  match fs with
  | [] => none
  | f :: rest =>
    match f s with
    | some t => some t
    | none => firstParse rest s

/-- `Info.BuildTimestamp()` from version.go: zero time for an absent
build date, else RFC3339 first, else the fallback formats in order, else
zero time.  The Go signature returns only a `time.Time`, never an
error. -/
def Info.BuildTimestamp (i : Info) : Timestamp :=
  if i.BuildDate == "" || i.BuildDate == "unknown" then timeZero
  else
    match parseRFC3339 i.BuildDate.data with
    | some t => t
    | none =>
      match firstParse buildFormats i.BuildDate with
      | some t => t
      | none => timeZero

/-- C7: `BuildTimestamp()` is total — it yields the zero timestamp when
the build date is empty, `"unknown"`, or matches no accepted format, and
otherwise the first successful parse (RFC3339 first, then the fallback
list in order); concretely, `"2025-01-01"` parses to a non-zero
timestamp and `"not-a-date"` to the zero timestamp. -/
theorem buildTimestamp_spec :
    (∀ i : Info, i.BuildDate = "" ∨ i.BuildDate = "unknown" →
        i.BuildTimestamp = timeZero)
      ∧ (∀ i : Info, parseRFC3339 i.BuildDate.data = none →
          firstParse buildFormats i.BuildDate = none →
          i.BuildTimestamp = timeZero)
      ∧ (∀ (i : Info) (t : Timestamp),
          i.BuildDate ≠ "" → i.BuildDate ≠ "unknown" →
          parseRFC3339 i.BuildDate.data = some t →
          i.BuildTimestamp = t)
      ∧ (∀ (i : Info) (t : Timestamp),
          i.BuildDate ≠ "" → i.BuildDate ≠ "unknown" →
          parseRFC3339 i.BuildDate.data = none →
          firstParse buildFormats i.BuildDate = some t →
          i.BuildTimestamp = t)
      ∧ ({ BuildDate := "2025-01-01" } : Info).BuildTimestamp ≠ timeZero
      ∧ ({ BuildDate := "not-a-date" } : Info).BuildTimestamp = timeZero := by
  refine ⟨?_, ?_, ?_, ?_, ?_, ?_⟩
  · intro i h
    rcases h with h | h <;> simp [Info.BuildTimestamp, h]
  · intro i h3339 hfirst
    by_cases he : i.BuildDate = ""
    · simp [Info.BuildTimestamp, he]
    · by_cases hu : i.BuildDate = "unknown"
      · simp [Info.BuildTimestamp, hu]
      · simp [Info.BuildTimestamp, he, hu, h3339, hfirst]
  · intro i t h1 h2 hp
    simp [Info.BuildTimestamp, h1, h2, hp]
  · intro i t h1 h2 h3339 hfirst
    simp [Info.BuildTimestamp, h1, h2, h3339, hfirst]
  · decide
  · decide

/-- C7 (witness): `buildTimestamp_spec` applied to the empty build
date. -/
theorem buildTimestamp_spec_witness :
    ({ } : Info).BuildTimestamp = timeZero :=
  buildTimestamp_spec.1 { } (Or.inl rfl)

end VersionKit
